import Mathlib

/-!
Verification of the `propy` repository: a shallow embedding of
`propy/DataUtil.py`, `propy/prop.py` and `propy/DataLoader.py`,
with theorems settling the spec's claims about them.

Conventions of the embedding:
* numeric matrix entries are `ℤ` (the spec restricts claims to
  representable numeric entries);
* a dense matrix is a `List (List ℤ)` in row-major order;
* Python `None`-able fields are `Option`s;
* operations that can raise (`IndexError`, failed deserialization)
  return `Option`.
-/

namespace Propy

/-! ## DataUtil.py -/

/-- One sparse entry `[i, j, val]` as appended by `matrix_to_list`. -/
abbrev Triple := ℕ × ℕ × ℤ

/-- Inner loop of `matrix_to_list`:
`for j, val in enumerate(row): if val != default_value: lst.append([i, j, val])`,
with the enumeration index starting at `j0`. -/
def rowTriples (i : ℕ) (d : ℤ) : ℕ → List ℤ → List Triple
  | _, [] => []
  | j, v :: vs => (if v ≠ d then [(i, j, v)] else []) ++ rowTriples i d (j + 1) vs

/-- Outer loop of `matrix_to_list`: `for i, row in enumerate(matrix)`,
with the enumeration index starting at `i0`. -/
def matrixToListAux (d : ℤ) : ℕ → List (List ℤ) → List Triple
  | _, [] => []
  | i, row :: rows => rowTriples i d 0 row ++ matrixToListAux d (i + 1) rows

/-- Python `matrix_to_list(matrix, default_value)`: all `[i, j, val]` with
`val != default_value`, scanned in row-major order. -/
def matrix_to_list (m : List (List ℤ)) (d : ℤ) : List Triple :=
  matrixToListAux d 0 m

/-- Python `np.full(shape=(size, size), fill_value=default_value)`. -/
def fullMatrix (size : ℕ) (d : ℤ) : List (List ℤ) :=
  List.replicate size (List.replicate size d)

/-- Python `matrix[i][j] = val` for an in-bounds index pair. -/
def setEntry (m : List (List ℤ)) (i j : ℕ) (v : ℤ) : List (List ℤ) :=
  m.set i ((m.getD i []).set j v)

/-- Python `list_to_matrix(lst, size, default_value)`: fill a `size × size` matrix
with the default, then write each triple in order (last write wins).
`none` models the `IndexError` raised when a triple's indices fall outside
the matrix. -/
def list_to_matrix (lst : List Triple) (size : ℕ) (d : ℤ) : Option (List (List ℤ)) :=
  lst.foldlM
    (fun m t =>
      if t.1 < size ∧ t.2.1 < size then some (setEntry m t.1 t.2.1 t.2.2) else none)
    (fullMatrix size d)

/-- Python `list_to_coo(lst)`: the `2 × E` array of `(row, col)` components of the
triples, value component dropped; `[[], []]` for the empty input. -/
def list_to_coo (lst : List Triple) : List (List ℕ) :=
  if lst.isEmpty then [[], []]
  else [lst.map (fun t => t.1), lst.map (fun t => t.2.1)]

/-- Python `list_to_edge_attr(lst)`: the values of the triples, order preserved. -/
def list_to_edge_attr (lst : List Triple) : List ℤ :=
  lst.map (fun t => t.2.2)

/-! ### Helper notions for the round-trip proof -/

/-- The matrix entry at row `i`, column `j` (0 outside the matrix). -/
def entry (m : List (List ℤ)) (i j : ℕ) : ℤ :=
  (m.getD i []).getD j 0

/-- The value written last at cell `(i, j)` by a triple list, if any. -/
def lastVal : List Triple → ℕ → ℕ → Option ℤ
  | [], _, _ => none
  | t :: l, i, j =>
      match lastVal l i j with
      | some v => some v
      | none => if t.1 = i ∧ t.2.1 = j then some t.2.2 else none

/-- Total counterpart of `list_to_matrix`'s write loop. -/
def applyTriples (m : List (List ℤ)) (l : List Triple) : List (List ℤ) :=
  l.foldl (fun m t => setEntry m t.1 t.2.1 t.2.2) m

theorem length_setEntry (m : List (List ℤ)) (i j : ℕ) (v : ℤ) :
    (setEntry m i j v).length = m.length := by
  simp [setEntry]

theorem getD_set {α : Type} (l : List α) (i : ℕ) (a : α) (j : ℕ) (d : α) :
    (l.set i a).getD j d = if i = j ∧ i < l.length then a else l.getD j d := by
  rw [List.getD_eq_getD_get?, List.getD_eq_getD_get?, List.get?_eq_getElem?,
    List.get?_eq_getElem?, List.getElem?_set]
  rcases eq_or_ne i j with rfl | hne
  · by_cases h : i < l.length
    · simp [h]
    · simp only [h, and_true, and_false, if_false]
      rw [List.getElem?_eq_none (Nat.le_of_not_lt h)]
      rfl
  · simp [hne]

theorem rowlen_setEntry (m : List (List ℤ)) (i j : ℕ) (v : ℤ) (i' : ℕ) :
    ((setEntry m i j v).getD i' []).length = (m.getD i' []).length := by
  unfold setEntry
  rw [getD_set]
  split
  · rename_i h
    rw [← h.1, List.length_set]
  · rfl

theorem entry_setEntry (m : List (List ℤ)) (i j : ℕ) (v : ℤ)
    (hi : i < m.length) (hj : j < (m.getD i []).length) (i' j' : ℕ) :
    entry (setEntry m i j v) i' j' =
      if i = i' ∧ j = j' then v else entry m i' j' := by
  unfold entry setEntry
  rw [getD_set]
  rcases eq_or_ne i i' with rfl | hne
  · rw [if_pos ⟨rfl, hi⟩, getD_set]
    rcases eq_or_ne j j' with rfl | hj'
    · rw [if_pos ⟨rfl, hj⟩, if_pos ⟨rfl, rfl⟩]
    · rw [if_neg (by simp [hj']), if_neg (by simp [hj'])]
  · rw [if_neg (by simp [hne]), if_neg (by simp [hne])]

theorem applyTriples_cons (m : List (List ℤ)) (t : Triple) (l : List Triple) :
    applyTriples m (t :: l) = applyTriples (setEntry m t.1 t.2.1 t.2.2) l := rfl

theorem length_applyTriples (l : List Triple) (m : List (List ℤ)) :
    (applyTriples m l).length = m.length := by
  induction l generalizing m with
  | nil => rfl
  | cons t l ih => rw [applyTriples_cons, ih, length_setEntry]

theorem rowlen_applyTriples (l : List Triple) (m : List (List ℤ)) (i' : ℕ) :
    ((applyTriples m l).getD i' []).length = (m.getD i' []).length := by
  induction l generalizing m with
  | nil => rfl
  | cons t l ih => rw [applyTriples_cons, ih, rowlen_setEntry]

theorem entry_applyTriples (l : List Triple) (m : List (List ℤ))
    (hin : ∀ t ∈ l, t.1 < m.length ∧ t.2.1 < (m.getD t.1 []).length) (i j : ℕ) :
    entry (applyTriples m l) i j = (lastVal l i j).getD (entry m i j) := by
  induction l generalizing m with
  | nil => rfl
  | cons t l ih =>
    have ht := hin t (List.mem_cons_self t l)
    rw [applyTriples_cons,
      ih (setEntry m t.1 t.2.1 t.2.2) (by
        intro u hu
        have := hin u (List.mem_cons_of_mem t hu)
        rw [length_setEntry, rowlen_setEntry]
        exact this),
      entry_setEntry m t.1 t.2.1 t.2.2 ht.1 ht.2 i j]
    show (lastVal l i j).getD _ =
      (match lastVal l i j with
        | some v => some v
        | none => if t.1 = i ∧ t.2.1 = j then some t.2.2 else none).getD (entry m i j)
    cases h : lastVal l i j with
    | some v => rfl
    | none =>
      by_cases hc : t.1 = i ∧ t.2.1 = j
      · simp [hc]
      · simp [hc]

theorem lastVal_append (a b : List Triple) (i j : ℕ) :
    lastVal (a ++ b) i j =
      match lastVal b i j with
      | some v => some v
      | none => lastVal a i j := by
  induction a with
  | nil =>
    show lastVal b i j = _
    cases lastVal b i j <;> rfl
  | cons t a ih =>
    show (match lastVal (a ++ b) i j with
      | some v => some v
      | none => if t.1 = i ∧ t.2.1 = j then some t.2.2 else none) = _
    rw [ih]
    cases lastVal b i j with
    | some v => rfl
    | none => rfl

theorem lastVal_single (i0 j0 : ℕ) (v d : ℤ) (i j : ℕ) :
    lastVal (if v ≠ d then [(i0, j0, v)] else []) i j =
      if i0 = i ∧ j0 = j ∧ v ≠ d then some v else none := by
  by_cases hv : v ≠ d <;> by_cases h1 : i0 = i <;> by_cases h2 : j0 = j <;>
    simp [lastVal, hv, h1, h2]

theorem lastVal_rowTriples (i0 : ℕ) (d : ℤ) (row : List ℤ) (j0 i j : ℕ) :
    lastVal (rowTriples i0 d j0 row) i j =
      if i0 = i ∧ j0 ≤ j ∧ j - j0 < row.length ∧ row.getD (j - j0) 0 ≠ d
      then some (row.getD (j - j0) 0) else none := by
  induction row generalizing j0 with
  | nil =>
    rw [rowTriples,
      if_neg (by rintro ⟨-, -, h3, -⟩; rw [List.length_nil] at h3; omega)]
    rfl
  | cons v vs ih =>
    rw [rowTriples, lastVal_append, ih (j0 + 1), lastVal_single]
    by_cases hC : i0 = i ∧ j0 + 1 ≤ j ∧ j - (j0 + 1) < vs.length ∧
        vs.getD (j - (j0 + 1)) 0 ≠ d
    · rw [if_pos hC]
      show some (vs.getD (j - (j0 + 1)) 0) = _
      have hsub : j - j0 = (j - (j0 + 1)) + 1 := by omega
      rw [hsub, List.getD_cons_succ]
      have hcond : i0 = i ∧ j0 ≤ j ∧ (j - (j0 + 1)) + 1 < (v :: vs).length ∧
          vs.getD (j - (j0 + 1)) 0 ≠ d :=
        ⟨hC.1, by omega, by rw [List.length_cons]; omega, hC.2.2.2⟩
      rw [if_pos hcond]
    · rw [if_neg hC]
      show (if i0 = i ∧ j0 = j ∧ v ≠ d then some v else none) = _
      by_cases hE : i0 = i ∧ j0 = j ∧ v ≠ d
      · rw [if_pos hE]
        have hz : j - j0 = 0 := by omega
        rw [hz, List.getD_cons_zero]
        have hcond : i0 = i ∧ j0 ≤ j ∧ 0 < (v :: vs).length ∧ v ≠ d :=
          ⟨hE.1, by omega, by rw [List.length_cons]; omega, hE.2.2⟩
        rw [if_pos hcond]
      · rw [if_neg hE]
        have hF : ¬(i0 = i ∧ j0 ≤ j ∧ j - j0 < (v :: vs).length ∧
            (v :: vs).getD (j - j0) 0 ≠ d) := by
          rintro ⟨h1, h2, h3, h4⟩
          rcases Nat.lt_or_ge j0 j with hlt | hge
          · apply hC
            have hsub : j - j0 = (j - (j0 + 1)) + 1 := by omega
            rw [hsub, List.getD_cons_succ] at h4
            rw [hsub, List.length_cons] at h3
            exact ⟨h1, by omega, by omega, h4⟩
          · apply hE
            have hz : j - j0 = 0 := by omega
            rw [hz, List.getD_cons_zero] at h4
            exact ⟨h1, by omega, h4⟩
        rw [if_neg hF]

theorem lastVal_matrixToListAux (d : ℤ) (rows : List (List ℤ)) (i0 i j : ℕ) :
    lastVal (matrixToListAux d i0 rows) i j =
      if i0 ≤ i ∧ i - i0 < rows.length ∧ j < (rows.getD (i - i0) []).length ∧
          (rows.getD (i - i0) []).getD j 0 ≠ d
      then some ((rows.getD (i - i0) []).getD j 0) else none := by
  induction rows generalizing i0 with
  | nil =>
    rw [matrixToListAux,
      if_neg (by rintro ⟨-, h2, -, -⟩; rw [List.length_nil] at h2; omega)]
    rfl
  | cons row rows ih =>
    rw [matrixToListAux, lastVal_append, ih (i0 + 1)]
    by_cases hC : i0 + 1 ≤ i ∧ i - (i0 + 1) < rows.length ∧
        j < (rows.getD (i - (i0 + 1)) []).length ∧
        (rows.getD (i - (i0 + 1)) []).getD j 0 ≠ d
    · rw [if_pos hC]
      show some ((rows.getD (i - (i0 + 1)) []).getD j 0) = _
      have hsub : i - i0 = (i - (i0 + 1)) + 1 := by omega
      rw [hsub, List.getD_cons_succ]
      have hcond : i0 ≤ i ∧ (i - (i0 + 1)) + 1 < (row :: rows).length ∧
          j < (rows.getD (i - (i0 + 1)) []).length ∧
          (rows.getD (i - (i0 + 1)) []).getD j 0 ≠ d :=
        ⟨by omega, by rw [List.length_cons]; omega, hC.2.2⟩
      rw [if_pos hcond]
    · rw [if_neg hC, lastVal_rowTriples]
      have hj0 : j - 0 = j := by omega
      rw [hj0]
      by_cases hE : i0 = i ∧ 0 ≤ j ∧ j < row.length ∧ row.getD j 0 ≠ d
      · rw [if_pos hE]
        have hz : i - i0 = 0 := by omega
        rw [hz, List.getD_cons_zero]
        have hcond : i0 ≤ i ∧ 0 < (row :: rows).length ∧ j < row.length ∧
            row.getD j 0 ≠ d :=
          ⟨by omega, by rw [List.length_cons]; omega, hE.2.2⟩
        rw [if_pos hcond]
      · rw [if_neg hE]
        have hF : ¬(i0 ≤ i ∧ i - i0 < (row :: rows).length ∧
            j < ((row :: rows).getD (i - i0) []).length ∧
            ((row :: rows).getD (i - i0) []).getD j 0 ≠ d) := by
          rintro ⟨h1, h2, h3, h4⟩
          rcases Nat.lt_or_ge i0 i with hlt | hge
          · apply hC
            have hsub : i - i0 = (i - (i0 + 1)) + 1 := by omega
            rw [hsub, List.getD_cons_succ] at h3 h4
            rw [hsub, List.length_cons] at h2
            exact ⟨by omega, by omega, h3, h4⟩
          · apply hE
            have hz : i - i0 = 0 := by omega
            rw [hz, List.getD_cons_zero] at h3 h4
            exact ⟨by omega, by omega, h3, h4⟩
        rw [if_neg hF]

theorem mem_rowTriples {t : Triple} (i0 : ℕ) (d : ℤ) (j0 : ℕ) (row : List ℤ)
    (h : t ∈ rowTriples i0 d j0 row) :
    t.1 = i0 ∧ j0 ≤ t.2.1 ∧ t.2.1 - j0 < row.length := by
  induction row generalizing j0 with
  | nil => cases h
  | cons v vs ih =>
    rw [rowTriples] at h
    rcases List.mem_append.mp h with h | h
    · by_cases hv : v ≠ d
      · rw [if_pos hv] at h
        rcases List.mem_singleton.mp h with rfl
        refine ⟨rfl, Nat.le_refl _, ?_⟩
        show j0 - j0 < (v :: vs).length
        rw [List.length_cons]
        omega
      · rw [if_neg hv] at h
        cases h
    · obtain ⟨h1, h2, h3⟩ := ih (j0 + 1) h
      refine ⟨h1, by omega, ?_⟩
      rw [List.length_cons]
      omega

theorem mem_matrixToListAux {t : Triple} (d : ℤ) (i0 : ℕ) (rows : List (List ℤ))
    (h : t ∈ matrixToListAux d i0 rows) :
    i0 ≤ t.1 ∧ t.1 - i0 < rows.length ∧
      t.2.1 < (rows.getD (t.1 - i0) []).length := by
  induction rows generalizing i0 with
  | nil => cases h
  | cons row rows ih =>
    rw [matrixToListAux] at h
    rcases List.mem_append.mp h with h | h
    · obtain ⟨h1, h2, h3⟩ := mem_rowTriples i0 d 0 row h
      have hz : t.1 - i0 = 0 := by omega
      rw [hz, List.getD_cons_zero, List.length_cons]
      exact ⟨by omega, by omega, by omega⟩
    · obtain ⟨h1, h2, h3⟩ := ih (i0 + 1) h
      have hsub : t.1 - i0 = (t.1 - (i0 + 1)) + 1 := by omega
      rw [hsub, List.getD_cons_succ, List.length_cons]
      exact ⟨by omega, by omega, h3⟩

theorem list_to_matrix_eq_applyTriples (l : List Triple) (size : ℕ) (d : ℤ)
    (h : ∀ t ∈ l, t.1 < size ∧ t.2.1 < size) :
    list_to_matrix l size d = some (applyTriples (fullMatrix size d) l) := by
  unfold list_to_matrix applyTriples
  generalize fullMatrix size d = m
  induction l generalizing m with
  | nil => rfl
  | cons t l ih =>
    rw [List.foldlM_cons, if_pos (h t (List.mem_cons_self t l))]
    show List.foldlM _ _ l = _
    rw [ih (fun u hu => h u (List.mem_cons_of_mem t hu)), List.foldl_cons]

theorem length_fullMatrix (size : ℕ) (d : ℤ) :
    (fullMatrix size d).length = size := by
  rw [fullMatrix, List.length_replicate]

theorem rowlen_fullMatrix (size : ℕ) (d : ℤ) (i : ℕ) (hi : i < size) :
    ((fullMatrix size d).getD i []).length = size := by
  have h1 : i < (List.replicate size (List.replicate size d)).length := by
    rw [List.length_replicate]
    exact hi
  rw [fullMatrix, List.getD_eq_getElem _ _ h1, List.getElem_replicate,
    List.length_replicate]

theorem entry_fullMatrix (size : ℕ) (d : ℤ) (i j : ℕ) (hi : i < size) (hj : j < size) :
    entry (fullMatrix size d) i j = d := by
  have h1 : i < (List.replicate size (List.replicate size d)).length := by
    rw [List.length_replicate]
    exact hi
  have h2 : (fullMatrix size d).getD i [] = List.replicate size d := by
    rw [fullMatrix, List.getD_eq_getElem _ _ h1, List.getElem_replicate]
  have h3 : j < (List.replicate size d).length := by
    rw [List.length_replicate]
    exact hj
  rw [entry, h2, List.getD_eq_getElem _ _ h3, List.getElem_replicate]

/-- Claim C1: `list_to_matrix(matrix_to_list(M, d), size=N, default=d)` recovers
any square `N × N` matrix `M` exactly: `matrix_to_list` and `list_to_matrix`
are exact inverses (round-trip law of the codec). -/
theorem matrix_to_list_list_to_matrix_roundtrip
    (m : List (List ℤ)) (N : ℕ) (d : ℤ)
    (hlen : m.length = N) (hrow : ∀ row ∈ m, row.length = N) :
    list_to_matrix (matrix_to_list m d) N d = some m := by
  have hin : ∀ t ∈ matrix_to_list m d, t.1 < N ∧ t.2.1 < N := by
    intro t ht
    obtain ⟨h1, h2, h3⟩ := mem_matrixToListAux d 0 m ht
    have ht1 : t.1 < N := by omega
    refine ⟨ht1, ?_⟩
    rw [Nat.sub_zero] at h3
    have hmlt : t.1 < m.length := by omega
    have hmem : m.getD t.1 [] ∈ m := by
      rw [List.getD_eq_getElem _ _ hmlt]
      exact List.getElem_mem _
    rw [hrow _ hmem] at h3
    exact h3
  rw [list_to_matrix_eq_applyTriples _ _ _ hin]
  congr 1
  have hin' : ∀ t ∈ matrix_to_list m d,
      t.1 < (fullMatrix N d).length ∧
      t.2.1 < ((fullMatrix N d).getD t.1 []).length := by
    intro t ht
    obtain ⟨ht1, ht2⟩ := hin t ht
    rw [length_fullMatrix, rowlen_fullMatrix _ _ _ ht1]
    exact ⟨ht1, ht2⟩
  have hlenA : (applyTriples (fullMatrix N d) (matrix_to_list m d)).length = N := by
    rw [length_applyTriples, length_fullMatrix]
  apply List.ext_getElem
  · rw [hlenA, hlen]
  · intro i hA hm
    have hiN : i < N := by rw [hlenA] at hA; exact hA
    have eX : (applyTriples (fullMatrix N d) (matrix_to_list m d)).getD i [] =
        (applyTriples (fullMatrix N d) (matrix_to_list m d))[i] :=
      List.getD_eq_getElem _ _ hA
    have em : m.getD i [] = m[i] := List.getD_eq_getElem _ _ hm
    have hrowAi : ((applyTriples (fullMatrix N d) (matrix_to_list m d)).getD i []).length = N := by
      rw [rowlen_applyTriples, rowlen_fullMatrix _ _ _ hiN]
    have hrowmi : (m.getD i []).length = N := by
      rw [em, hrow _ (List.getElem_mem _)]
    apply List.ext_getElem
    · rw [← eX, ← em, hrowAi, hrowmi]
    · intro j hjA hjm
      have hjN : j < N := by
        rw [← eX, hrowAi] at hjA
        exact hjA
      have hjA' : j < ((applyTriples (fullMatrix N d) (matrix_to_list m d)).getD i []).length := by
        rw [eX]
        exact hjA
      have hjm' : j < (m.getD i []).length := by
        rw [em]
        exact hjm
      have e1 : entry (applyTriples (fullMatrix N d) (matrix_to_list m d)) i j =
          (applyTriples (fullMatrix N d) (matrix_to_list m d))[i][j] := by
        rw [entry, eX, List.getD_eq_getElem _ _ hjA]
      have e2 : entry m i j = m[i][j] := by
        rw [entry, em, List.getD_eq_getElem _ _ hjm]
      rw [← e1, ← e2]
      rw [entry_applyTriples _ _ hin' i j, entry_fullMatrix _ _ _ _ hiN hjN]
      rw [matrix_to_list, lastVal_matrixToListAux, Nat.sub_zero]
      by_cases hd : (m.getD i []).getD j 0 ≠ d
      · have hcond : 0 ≤ i ∧ i < m.length ∧ j < (m.getD i []).length ∧
            (m.getD i []).getD j 0 ≠ d :=
          ⟨Nat.zero_le i, by omega, hjm', hd⟩
        rw [if_pos hcond, Option.getD_some]
        rfl
      · rw [if_neg (by rintro ⟨-, -, -, h4⟩; exact hd h4), Option.getD_none]
        exact (not_not.mp hd).symm

theorem matrix_to_list_list_to_matrix_roundtrip_witness :
    ([[(1 : ℤ), 0], [0, 2]]).length = 2 ∧
    (∀ row ∈ [[(1 : ℤ), 0], [0, 2]], row.length = 2) ∧
    list_to_matrix (matrix_to_list [[(1 : ℤ), 0], [0, 2]] 0) 2 0 =
      some [[(1 : ℤ), 0], [0, 2]] :=
  ⟨by decide, by decide,
    matrix_to_list_list_to_matrix_roundtrip [[(1 : ℤ), 0], [0, 2]] 2 0
      (by decide) (by decide)⟩

/-- Claim C10: `list_to_coo` returns a `2 × E` array holding the `(row, col)`
components of each triple in input order, value dropped; `[[], []]` (a `2 × 0`
array) for the empty input. -/
theorem list_to_coo_spec (lst : List Triple) :
    (list_to_coo lst).length = 2 ∧
    (∀ r ∈ list_to_coo lst, r.length = lst.length) ∧
    (∀ k, k < lst.length →
      ((list_to_coo lst).getD 0 []).getD k 0 = (lst.getD k (0, 0, 0)).1 ∧
      ((list_to_coo lst).getD 1 []).getD k 0 = (lst.getD k (0, 0, 0)).2.1) ∧
    list_to_coo [] = [[], []] := by
  unfold list_to_coo
  by_cases he : lst.isEmpty
  · rw [if_pos he, if_pos (by rfl)]
    have hnil : lst = [] := List.isEmpty_iff.mp he
    subst hnil
    refine ⟨rfl, ?_, ?_, rfl⟩
    · intro r hr
      rcases List.mem_cons.mp hr with rfl | hr
      · rfl
      · rcases List.mem_singleton.mp hr with rfl
        rfl
    · intro k hk
      rw [List.length_nil] at hk
      omega
  · rw [if_neg he, if_pos (by rfl)]
    refine ⟨rfl, ?_, ?_, rfl⟩
    · intro r hr
      rcases List.mem_cons.mp hr with rfl | hr
      · rw [List.length_map]
      · rcases List.mem_singleton.mp hr with rfl
        rw [List.length_map]
    · intro k hk
      constructor
      · show (lst.map (fun t => t.1)).getD k 0 = (lst.getD k (0, 0, 0)).1
        exact List.getD_map lst (0, 0, 0) (fun t => t.1)
      · show (lst.map (fun t => t.2.1)).getD k 0 = (lst.getD k (0, 0, 0)).2.1
        exact List.getD_map lst (0, 0, 0) (fun t => t.2.1)

theorem list_to_coo_spec_witness :
    (0 : ℕ) < 2 ∧
    ((list_to_coo [(0, 1, 5), (1, 2, 7)]).getD 0 []).getD 0 0 = 0 ∧
    ((list_to_coo [(0, 1, 5), (1, 2, 7)]).getD 1 []).getD 0 0 = 1 ∧
    (list_to_coo [(0, 1, 5), (1, 2, 7)]).length = 2 :=
  ⟨by decide,
    ((list_to_coo_spec [(0, 1, 5), (1, 2, 7)]).2.2.1 0 (by decide)).1,
    ((list_to_coo_spec [(0, 1, 5), (1, 2, 7)]).2.2.1 0 (by decide)).2,
    (list_to_coo_spec [(0, 1, 5), (1, 2, 7)]).1⟩

/-! ## prop.py -/

/-- A graph node identifier: a numeric node id or the synthetic root marker
`"ROOT"` used by the first propagation event. -/
inductive PNode where
  | node (n : ℕ)
  | ROOT
deriving DecidableEq

/-- A propagation event `(t, parent_id, node_id)`. -/
abbrev Event := ℤ × PNode × PNode

/-- A kwargs dict bound to a callback (opaque numeric payload). -/
abbrev KwArgs := List (String × ℤ)

/-- An attribute dict of an edge: action key ↦ numeric weight. -/
abbrev AttrDict := List (String × ℤ)

/-- Python dict assignment `dct[k] = v` (replace or append, order kept). -/
def dictSet (dct : AttrDict) (k : String) (v : ℤ) : AttrDict :=
  if dct.any (fun p => decide (p.1 = k)) then
    dct.map (fun p => if p.1 = k then (k, v) else p)
  else dct ++ [(k, v)]

/-- Python dict lookup `dct.get(k)`. -/
def dictGet (dct : AttrDict) (k : String) : Option ℤ :=
  (dct.find? (fun p => decide (p.1 = k))).map (fun p => p.2)

/-- The state of a `NetworkPropagation` instance (an `nx.DiGraph` subclass):
node list and attributed directed edge list in insertion order, plus the
propagation bookkeeping attributes set up by `__init__`. Event listeners are
opaque callbacks, modelled as numeric tokens paired with bound kwargs. -/
structure NetworkPropagation where
  seed : ℤ
  nodes : List PNode
  edges : List ((PNode × PNode) × AttrDict)
  num_info : ℕ
  user_actions : List String
  info_to_propagation : List (ℕ × List Event)
  info_to_attributes : List (ℕ × AttrDict)
  event_listeners : List (String × List (ℕ × KwArgs))
deriving DecidableEq

/-- Python `nx.DiGraph.add_node`: appends the node if it is not present. -/
def add_node (g : NetworkPropagation) (u : PNode) : NetworkPropagation :=
  if u ∈ g.nodes then g else { g with nodes := g.nodes ++ [u] }

/-- Python `nx.DiGraph.add_edge(u, v, **kvs)`: adds missing endpoints as nodes,
creates the edge if absent, and merges `kvs` into its attribute dict. -/
def add_edge (g : NetworkPropagation) (u v : PNode) (kvs : AttrDict) :
    NetworkPropagation :=
  let g1 := add_node (add_node g u) v
  if g1.edges.any (fun e => decide (e.1 = (u, v))) then
    { g1 with edges := g1.edges.map (fun e =>
        if e.1 = (u, v)
        then (e.1, kvs.foldl (fun dct p => dictSet dct p.1 p.2) e.2)
        else e) }
  else
    { g1 with edges := g1.edges ++ [((u, v), kvs)] }

/-- Python `add_action(u, v, action_key, value)` = `add_edge(u, v, **{action_key: value})`. -/
def add_action (g : NetworkPropagation) (u v : PNode) (action_key : String)
    (value : ℤ) : NetworkPropagation :=
  add_edge g u v [(action_key, value)]

/-- Python `_append_user_actions_with_info`: append `"<key>_<info>"` for each info. -/
def appendUserActionsWithInfo (acts : List String) (num_info : ℕ)
    (action_key : String) : List String :=
  acts ++ (List.range num_info).map (fun i => action_key ++ "_" ++ toString i)

/-- Python `NetworkPropagation.__init__` for an explicitly supplied propagation dict
(the probabilistic branch generates the dict first and is not needed here):
add the nodes, add the edges with `follow = 1`, build the action-key catalog,
then write every non-root propagation event back as a
`propagate_<info> = t` edge annotation. -/
def mkNetworkPropagation (nodes : List PNode) (edges : List (PNode × PNode))
    (num_info : ℕ) (propagation : List (ℕ × List Event))
    (userActions : List String) (seed : ℤ) : NetworkPropagation :=
  let g : NetworkPropagation :=
    { seed := seed, nodes := [], edges := [], num_info := num_info,
      user_actions := [], info_to_propagation := [], info_to_attributes := [],
      event_listeners := [] }
  let g := nodes.foldl add_node g
  let g := edges.foldl (fun g e => add_edge g e.1 e.2 [("follow", 1)]) g
  let ua := appendUserActionsWithInfo ["follow"] num_info "propagate"
  let ua := userActions.foldl (fun acc k => appendUserActionsWithInfo acc num_info k) ua
  let g := { g with user_actions := ua }
  let g := propagation.foldl (fun g ip =>
      (ip.2.drop 1).foldl (fun g ev =>
        add_action g ev.2.1 ev.2.2 ("propagate_" ++ toString ip.1) ev.1) g) g
  { g with info_to_propagation := propagation,
           info_to_attributes := propagation.map (fun ip => (ip.1, [])) }

/-- The `action_key` weight of edge `(u, v)`, if the edge exists and carries
that annotation. -/
def edgeWeight (g : NetworkPropagation) (u v : PNode) (key : String) : Option ℤ :=
  (g.edges.find? (fun e => decide (e.1 = (u, v)))).bind (fun e => dictGet e.2 key)

/-- Modelled from the spec: `propy.NetworkUtil.to_numpy_matrix` (the module
`NetworkUtil.py` is not part of the given sources). Per the spec it produces
an `N × N` matrix over the graph's nodes where cell `(u, v)` is the weight of
edge `(u, v)` for the given weight key if present, else
`value_for_non_weight_exist = 0`. -/
def to_numpy_matrix (g : NetworkPropagation) (weight : String) : List (List ℤ) :=
  g.nodes.map (fun u => g.nodes.map (fun v => (edgeWeight g u v weight).getD 0))

/-- Python `get_action_matrix(action_key, time_stamp, is_binary_repr)`: `none`
models the failed `assert action_key in self.user_actions`; the
`time_stamp` filter is `np.multiply(m, m <= time_stamp)`. -/
def get_action_matrix (g : NetworkPropagation) (action_key : String)
    (time_stamp : Option ℤ) (is_binary_repr : Bool) : Option (List (List ℤ)) :=
  if action_key ∈ g.user_actions then
    let am := to_numpy_matrix g action_key
    let am := match time_stamp with
      | some ts => am.map (fun row => row.map (fun v => if v ≤ ts then v else 0))
      | none => am
    some (if is_binary_repr
      then am.map (fun row => row.map (fun v => if v ≠ 0 then 1 else 0))
      else am)
  else none

/-- Python `set_info_attr(info, attr, val)`: only touches `info_to_attributes`. -/
def set_info_attr (g : NetworkPropagation) (info : ℕ) (attr : String) (v : ℤ) :
    NetworkPropagation :=
  { g with info_to_attributes := g.info_to_attributes.map (fun p =>
      if p.1 = info then (p.1, dictSet p.2 attr v) else p) }

/-- Python `add_event_listener(event_type, callback_func, **kwargs)`: appends the
pair to the `defaultdict(list)` entry of `event_type`. -/
def add_event_listener (g : NetworkPropagation) (event_type : String)
    (cb : ℕ) (kwargs : KwArgs) : NetworkPropagation :=
  { g with event_listeners :=
      if g.event_listeners.any (fun p => decide (p.1 = event_type)) then
        g.event_listeners.map (fun p =>
          if p.1 = event_type then (p.1, p.2 ++ [(cb, kwargs)]) else p)
      else g.event_listeners ++ [(event_type, [(cb, kwargs)])] }

/-- Reading `event_listeners[event_type]` (empty for an absent key). -/
def lookupListeners (g : NetworkPropagation) (event_type : String) :
    List (ℕ × KwArgs) :=
  ((g.event_listeners.find? (fun p => decide (p.1 = event_type))).map
    (fun p => p.2)).getD []

/-- One listener invocation: `callback_func(network_propagation=self,
event=event, info=info, **kwargs)`. The engine argument is `self` and is
omitted from the record. -/
structure CallRecord where
  callback : ℕ
  event : Event
  info : ℕ
  kwargs : KwArgs
deriving DecidableEq

/-- Python `_run_event_listener`: invoke each registered listener of the event type
in registration order; the result is the list of performed invocations. -/
def run_event_listener (g : NetworkPropagation) (given_event_type : String)
    (event : Event) (info : ℕ) : List CallRecord :=
  (lookupListeners g given_event_type).map (fun p =>
    { callback := p.1, event := event, info := info, kwargs := p.2 })

/-- Python `simulate_propagation()`: for every item in `info_to_propagation` order,
replay every stored event in order through `_run_event_listener "propagate"`.
The returned engine is the unchanged `self`; the list is the invocation
trace. -/
def simulate_propagation (g : NetworkPropagation) :
    NetworkPropagation × List CallRecord :=
  (g, g.info_to_propagation.foldl (fun acc ip =>
        ip.2.foldl (fun acc2 ev =>
          acc2 ++ run_event_listener g "propagate" ev ip.1) acc) [])

/-- The concrete engine of the spec's dense-round-trip scenario:
`nodes=[0,1,2]`, `edges=[(0,1),(1,2)]`, `num_info=1`,
`propagation={0: [(0,"ROOT",0), (1,0,1), (2,1,2)]}`. -/
def scenario : NetworkPropagation :=
  mkNetworkPropagation [PNode.node 0, PNode.node 1, PNode.node 2]
    [(PNode.node 0, PNode.node 1), (PNode.node 1, PNode.node 2)] 1
    [(0, [(0, PNode.ROOT, PNode.node 0), (1, PNode.node 0, PNode.node 1),
          (2, PNode.node 1, PNode.node 2)])]
    [] 42

theorem entry_map_map (ns : List PNode) (f : PNode → PNode → ℤ) (i j : ℕ)
    (hi : i < ns.length) (hj : j < ns.length) :
    entry (ns.map (fun u => ns.map (fun v => f u v))) i j =
      f (ns.getD i PNode.ROOT) (ns.getD j PNode.ROOT) := by
  rw [entry]
  have h1 : (ns.map (fun u => ns.map (fun v => f u v))).getD i [] =
      ns.map (fun v => f (ns.getD i PNode.ROOT) v) := by
    rw [List.getD_eq_getElem _ _ (by rw [List.length_map]; exact hi),
      List.getElem_map, List.getD_eq_getElem _ _ hi]
  rw [h1]
  rw [List.getD_eq_getElem _ _ (by rw [List.length_map]; exact hj)]
  rw [List.getElem_map, List.getD_eq_getElem _ _ hj]

/-- Claim C2: `get_action_matrix(a, time_stamp=T)` returns the matrix whose
`(i, j)` cell is the `a`-weight of edge `(nodes[i], nodes[j])` when present
and at most `T` (equality retained), else `0`; and on the scenario engine
`get_action_matrix("propagate_0")` is `[[0,1,0],[0,0,2],[0,0,0]]` while with
`time_stamp=1` the cell `M[1][2]` becomes `0`. -/
theorem get_action_matrix_spec :
    (∀ (g : NetworkPropagation) (key : String) (ts : ℤ) (i j : ℕ),
      key ∈ g.user_actions → i < g.nodes.length → j < g.nodes.length →
      ∃ m, get_action_matrix g key (some ts) false = some m ∧
        entry m i j =
          (match edgeWeight g (g.nodes.getD i PNode.ROOT)
              (g.nodes.getD j PNode.ROOT) key with
            | some w => if w ≤ ts then w else 0
            | none => 0)) ∧
    get_action_matrix scenario "propagate_0" none false =
      some [[0, 1, 0], [0, 0, 2], [0, 0, 0]] ∧
    get_action_matrix scenario "propagate_0" (some 1) false =
      some [[0, 1, 0], [0, 0, 0], [0, 0, 0]] := by
  refine ⟨?_, by decide, by decide⟩
  intro g key ts i j hk hi hj
  have heq : get_action_matrix g key (some ts) false =
      some ((to_numpy_matrix g key).map (fun row =>
        row.map (fun v => if v ≤ ts then v else 0))) := by
    unfold get_action_matrix
    rw [if_pos hk]
    rfl
  refine ⟨_, heq, ?_⟩
  rw [to_numpy_matrix]
  simp only [List.map_map, Function.comp_def]
  rw [entry_map_map g.nodes
    (fun u v => if (edgeWeight g u v key).getD 0 ≤ ts
      then (edgeWeight g u v key).getD 0 else 0) i j hi hj]
  cases hw : edgeWeight g (g.nodes.getD i PNode.ROOT) (g.nodes.getD j PNode.ROOT) key with
  | some w => rw [Option.getD_some]
  | none => rw [Option.getD_none]; exact ite_self 0

theorem get_action_matrix_spec_witness :
    "propagate_0" ∈ scenario.user_actions ∧ (1 : ℕ) < scenario.nodes.length ∧
    (2 : ℕ) < scenario.nodes.length ∧
    ∃ m, get_action_matrix scenario "propagate_0" (some 1) false = some m ∧
      entry m 1 2 =
        (match edgeWeight scenario (scenario.nodes.getD 1 PNode.ROOT)
            (scenario.nodes.getD 2 PNode.ROOT) "propagate_0" with
          | some w => if w ≤ 1 then w else 0
          | none => 0) :=
  ⟨by decide, by decide, by decide,
    get_action_matrix_spec.1 scenario "propagate_0" 1 1 2
      (by decide) (by decide) (by decide)⟩

/-- Claim C6, counterexample: `add_action` on a node pair that is not an edge
inserts a new edge: the edge set of the engine is not fixed under the public
operations, contrary to the claim. -/
theorem add_action_changes_edge_set :
    (add_action scenario (PNode.node 0) (PNode.node 2) "follow" 5).edges.map
        (fun e => e.1) ≠
      scenario.edges.map (fun e => e.1) := by decide

/-- Claim C6, amended: `set_info_attr`, `add_event_listener` and
`simulate_propagation` never change the node or edge set, and `add_action`
preserves them exactly when its endpoints are existing nodes joined by an
existing edge; on a fresh pair it inserts the edge (see the counterexample). -/
theorem engine_ops_graph_sets :
    (∀ (g : NetworkPropagation) (info : ℕ) (attr : String) (v : ℤ),
      (set_info_attr g info attr v).nodes = g.nodes ∧
      (set_info_attr g info attr v).edges = g.edges) ∧
    (∀ (g : NetworkPropagation) (et : String) (cb : ℕ) (kw : KwArgs),
      (add_event_listener g et cb kw).nodes = g.nodes ∧
      (add_event_listener g et cb kw).edges = g.edges) ∧
    (∀ g : NetworkPropagation, (simulate_propagation g).1 = g) ∧
    (∀ (g : NetworkPropagation) (u v : PNode) (key : String) (val : ℤ),
      u ∈ g.nodes → v ∈ g.nodes → (u, v) ∈ g.edges.map (fun e => e.1) →
      (add_action g u v key val).nodes = g.nodes ∧
      (add_action g u v key val).edges.map (fun e => e.1) =
        g.edges.map (fun e => e.1)) := by
  refine ⟨fun g info attr v => ⟨rfl, rfl⟩,
    fun g et cb kw => ⟨rfl, rfl⟩, fun g => rfl, ?_⟩
  intro g u v key val hu hv he
  have hn : add_node (add_node g u) v = g := by
    unfold add_node
    rw [if_pos hu, if_pos hv]
  have hany : g.edges.any (fun e => decide (e.1 = (u, v))) = true := by
    rcases List.mem_map.mp he with ⟨e, hmem, heq⟩
    exact List.any_eq_true.mpr ⟨e, hmem, by rw [heq]; simp⟩
  unfold add_action add_edge
  simp only [hn]
  rw [if_pos hany]
  refine ⟨rfl, ?_⟩
  show (g.edges.map _).map _ = _
  rw [List.map_map]
  apply List.map_congr_left
  intro e hmem
  by_cases hc : e.1 = (u, v)
  · simp [Function.comp, hc]
  · simp [Function.comp, hc]

theorem engine_ops_graph_sets_witness :
    PNode.node 0 ∈ scenario.nodes ∧ PNode.node 1 ∈ scenario.nodes ∧
    (PNode.node 0, PNode.node 1) ∈ scenario.edges.map (fun e => e.1) ∧
    (add_action scenario (PNode.node 0) (PNode.node 1) "x" 7).nodes =
      scenario.nodes ∧
    (add_action scenario (PNode.node 0) (PNode.node 1) "x" 7).edges.map
        (fun e => e.1) =
      scenario.edges.map (fun e => e.1) :=
  ⟨by decide, by decide, by decide,
    (engine_ops_graph_sets.2.2.2 scenario (PNode.node 0) (PNode.node 1) "x" 7
      (by decide) (by decide) (by decide)).1,
    (engine_ops_graph_sets.2.2.2 scenario (PNode.node 0) (PNode.node 1) "x" 7
      (by decide) (by decide) (by decide)).2⟩

theorem foldl_append_flatten {α β : Type} (f : α → List β) (l : List α)
    (init : List β) :
    l.foldl (fun acc x => acc ++ f x) init = init ++ (l.map f).flatten := by
  induction l generalizing init with
  | nil => simp
  | cons x l ih =>
    rw [List.foldl_cons, ih, List.map_cons, List.flatten_cons,
      List.append_assoc]

/-- Claim C8: `simulate_propagation` replays, for every item in
`info_to_propagation` order, every stored event (the synthetic root event
included) in stored order, invoking each listener registered under
`"propagate"` (with the engine, the event tuple, the item id and the bound
kwargs) in registration order; the engine itself is returned unchanged. -/
theorem simulate_propagation_spec (g : NetworkPropagation) :
    (simulate_propagation g).1 = g ∧
    (simulate_propagation g).2 =
      (g.info_to_propagation.map (fun ip =>
        (ip.2.map (fun ev =>
          (lookupListeners g "propagate").map (fun p =>
            { callback := p.1, event := ev, info := ip.1, kwargs := p.2
              : CallRecord }))).flatten)).flatten := by
  refine ⟨rfl, ?_⟩
  show g.info_to_propagation.foldl _ [] = _
  have h : ∀ (l : List (ℕ × List Event)) (init : List CallRecord),
      l.foldl (fun acc ip =>
        ip.2.foldl (fun acc2 ev =>
          acc2 ++ run_event_listener g "propagate" ev ip.1) acc) init =
      init ++ (l.map (fun ip =>
        (ip.2.map (fun ev =>
          run_event_listener g "propagate" ev ip.1)).flatten)).flatten := by
    intro l
    induction l with
    | nil => intro init; simp
    | cons ip l ih =>
      intro init
      rw [List.foldl_cons, foldl_append_flatten, ih, List.map_cons,
        List.flatten_cons, List.append_assoc]
  rw [h g.info_to_propagation []]
  rw [List.nil_append]
  rfl

/-! ## DataLoader.py -/

/-- Python `assign_or_concat(base, extra)`: adopt on first assignment, else
concatenate (list `+` / `np.concatenate` along the leading axis). -/
def assign_or_concat {α : Type} (base : Option (List α)) (extra : List α) :
    List α :=
  match base with
  | none => extra
  | some b => b ++ extra

/-- The state of an `ActionMatrixLoader`: the `__slots__` fields (minus the
filesystem `path`). `None`-able fields are `Option`s. -/
structure ActionMatrixLoader where
  actions : List String
  is_coo_repr : Bool
  is_x_indices_repr : Bool
  num_x_features : Option ℕ
  num_y_features : Option ℕ
  num_classes : Option ℕ
  edge_indices_list : Option (List (List (List Triple)))
  selected_node_indices : Option (List (List ℕ))
  x_features : Option (List (List ℤ))
  y_features : Option (List (List ℤ))
  ys : Option (List (List ℤ))
deriving DecidableEq

/-- Python `ActionMatrixLoader.__init__(path, actions)` with the default flags:
all data fields start as `None`. -/
def initLoader (actions : List String) : ActionMatrixLoader :=
  { actions := actions, is_coo_repr := true, is_x_indices_repr := false,
    num_x_features := none, num_y_features := none, num_classes := none,
    edge_indices_list := none, selected_node_indices := none,
    x_features := none, y_features := none, ys := none }

/-- Python `update_matrices_and_indices(..., convert_to_list=False)`. -/
def update_matrices_and_indices_raw (c : ActionMatrixLoader)
    (matrices_sequence : List (List (List Triple)))
    (selected_node_indices : List (List ℕ)) : ActionMatrixLoader :=
  { c with
    edge_indices_list :=
      some (assign_or_concat c.edge_indices_list matrices_sequence),
    selected_node_indices :=
      some (assign_or_concat c.selected_node_indices selected_node_indices) }

/-- Python `update_matrices_and_indices(..., convert_to_list=True)`: every dense
matrix is first encoded with `matrix_to_list` (default value `0`). -/
def update_matrices_and_indices_conv (c : ActionMatrixLoader)
    (matrices_sequence : List (List (List (List ℤ))))
    (selected_node_indices : List (List ℕ)) : ActionMatrixLoader :=
  update_matrices_and_indices_raw c
    (matrices_sequence.map (fun matrices =>
      matrices.map (fun mat => matrix_to_list mat 0)))
    selected_node_indices

/-- Python `update_x_features`: on the first call the feature width is captured
from `x_features[0].shape[0]`; `none` models the `IndexError` this raises
when the first update is empty. -/
def update_x_features (c : ActionMatrixLoader) (x_features : List (List ℤ)) :
    Option ActionMatrixLoader :=
  match c.x_features with
  | none =>
    match x_features with
    | [] => none
    | x0 :: rest =>
      some { c with num_x_features := some x0.length,
                    x_features :=
                      some (assign_or_concat c.x_features (x0 :: rest)) }
  | some _ =>
    some { c with x_features :=
                    some (assign_or_concat c.x_features x_features) }

/-- Python `update_y_features`, same capture pattern as `update_x_features`. -/
def update_y_features (c : ActionMatrixLoader) (y_features : List (List ℤ)) :
    Option ActionMatrixLoader :=
  match c.y_features with
  | none =>
    match y_features with
    | [] => none
    | y0 :: rest =>
      some { c with num_y_features := some y0.length,
                    y_features :=
                      some (assign_or_concat c.y_features (y0 :: rest)) }
  | some _ =>
    some { c with y_features :=
                    some (assign_or_concat c.y_features y_features) }

/-- Python `update_ys`: on the first call `num_classes` is hardcoded to `4`. -/
def update_ys (c : ActionMatrixLoader) (ys : List (List ℤ)) :
    ActionMatrixLoader :=
  let c1 := if c.ys = none then { c with num_classes := some 4 } else c
  { c1 with ys := some (assign_or_concat c1.ys ys) }

/-- Python `int()` on a rational value: truncation toward zero. -/
def pyInt (q : ℚ) : ℤ :=
  if 0 ≤ q then ⌊q⌋ else ⌈q⌉

/-- The `n_splits` handed to `KFold`: `int(1 / (1 - train_ratio))`. -/
def numFolds (trainR : ℚ) : ℤ :=
  pyInt (1 / (1 - trainR))

/-- Size of sklearn `KFold` fold `f` over `n` samples: the first `n % k`
folds get one extra sample. -/
def foldSize (n k f : ℕ) : ℕ :=
  n / k + if f < n % k then 1 else 0

/-- Start offset of sklearn `KFold` fold `f`. -/
def foldStart (n k f : ℕ) : ℕ :=
  f * (n / k) + min f (n % k)

/-- The test positions of fold `f`: the `f`-th contiguous block of the
(internally shuffled) position permutation `p` (`p = range n` when
`shuffle=False`). -/
def kfoldTestIdx (n k f : ℕ) (p : List ℕ) : List ℕ :=
  (p.drop (foldStart n k f)).take (foldSize n k f)

/-- The train positions of fold `f`: all positions not in the test mask,
in increasing order (sklearn emits `indices[np.logical_not(test_mask)]`). -/
def kfoldTrainIdx (n k f : ℕ) (p : List ℕ) : List ℕ :=
  (List.range n).filter (fun t => decide (t ∉ kfoldTestIdx n k f p))

/-- The example-selection loop of `get_batch_generator`: map each kept
position through the (optionally shuffled) index array `xs`, then skip
every example whose selected-node-index list is empty. -/
def emitted (sel : List (List ℕ)) (xs positions : List ℕ) : List ℕ :=
  (positions.map (fun t => xs.getD t 0)).filter
    (fun idx => !(sel.getD idx []).isEmpty)

/-- The example indices consumed by `get_batch_generator` when `is_train`
is specified (the yielded batches partition this sequence): take the
(optionally shuffled) index array `xs`, keep the train- or test-side
positions of the requested fold, and skip examples whose selected-node
list is empty. `none` models the `len` assertion, the `KFold` argument
validation and the `fold` assertion. -/
def get_batch_generator_indices (c : ActionMatrixLoader) (xs p : List ℕ)
    (is_train : Bool) (trainR : ℚ) (fold : ℕ) : Option (List ℕ) :=
  match c.edge_indices_list, c.ys, c.selected_node_indices with
  | some e, some y, some sel =>
    if e.length = y.length then
      let n := e.length
      let k := (numFolds trainR).toNat
      if 2 ≤ k ∧ k ≤ n ∧ fold < k then
        some (emitted sel xs
          (if is_train then kfoldTrainIdx n k fold p else kfoldTestIdx n k fold p))
      else none
    else none
  | _, _, _ => none

/-- Python `int(math.ceil(a / b))` for positive `b`. -/
def ceilDiv (a b : ℕ) : ℕ :=
  (a + b - 1) / b

/-- Python `dump(name_prefix, num_subfiles)`: slice the example axis (and,
independently, the x-feature axis) into `num_subfiles` ceiling-division
chunks and build one fresh shard container per chunk through the update
API (`convert_to_list=False`); the result is the list of dumped shard
containers in file order. `none` models the asserts and the `IndexError`
of an empty first x-update. -/
def dump (c : ActionMatrixLoader) (num_subfiles : ℕ) :
    Option (List ActionMatrixLoader) :=
  match c.edge_indices_list, c.ys, c.x_features, c.selected_node_indices with
  | some E, some Y, some X, some SEL =>
    if E.length = Y.length then
      let info_batch := ceilDiv E.length num_subfiles
      let x_batch := ceilDiv X.length num_subfiles
      (List.range num_subfiles).mapM (fun i =>
        let sh := update_matrices_and_indices_raw (initLoader c.actions)
          ((E.drop (i * info_batch)).take info_batch)
          ((SEL.drop (i * info_batch)).take info_batch)
        (update_x_features sh ((X.drop (i * x_batch)).take x_batch)).bind
          (fun sh1 =>
            let sh2 := update_ys sh1 ((Y.drop (i * info_batch)).take info_batch)
            match c.y_features with
            | none => some sh2
            | some YF =>
              update_y_features sh2 ((YF.drop (i * info_batch)).take info_batch)))
    else none
  | _, _, _, _ => none

/-- One field step of `_load_batch`: `assign_or_concat(self.f, loaded.f)`
where `loaded.f` may itself be `None`; `none` models the `TypeError` of
concatenating a list with `None`. -/
def assign_or_concat_opt {α : Type} (base extra : Option (List α)) :
    Option (Option (List α)) :=
  match base, extra with
  | none, e => some e
  | some b, some e => some (some (b ++ e))
  | some _, none => none

/-- Python `_load_batch` after a successful deserialization: merge every data
field; `none` is the caught-exception path (returns `False` in Python). -/
def load_batch (c sh : ActionMatrixLoader) : Option ActionMatrixLoader :=
  match assign_or_concat_opt c.edge_indices_list sh.edge_indices_list,
        assign_or_concat_opt c.selected_node_indices sh.selected_node_indices,
        assign_or_concat_opt c.x_features sh.x_features,
        assign_or_concat_opt c.y_features sh.y_features,
        assign_or_concat_opt c.ys sh.ys with
  | some e, some s, some x, some yf, some y =>
    some { c with edge_indices_list := e, selected_node_indices := s,
                  x_features := x, y_features := yf, ys := y }
  | _, _, _, _, _ => none

/-- The shard-file loop of `load`: each directory entry is a file name
(a character list) with its deserialization outcome (`none` = the file
fails to deserialize, which `_load_batch` catches). The loop stops at the
first failure, reporting `False` with the state accumulated so far. -/
def loadFiles (c : ActionMatrixLoader) :
    List (List Char × Option ActionMatrixLoader) → Bool × ActionMatrixLoader
  | [] => (true, c)
  | f :: rest =>
    match f.2 with
    | none => (false, c)
    | some sh =>
      match load_batch c sh with
      | none => (false, c)
      | some c2 => loadFiles c2 rest

/-- Python `load(name_prefix)` over a directory listing: keep the files whose name
starts with the prefix (`str.startswith`) and ends with `".pkl"`
(`str.endswith`), in listing order; report `False` when none match, else
fold `_load_batch` over them. File names are character lists, so the two
Python string tests are the prefix and suffix tests on them. -/
def load (c : ActionMatrixLoader)
    (listing : List (List Char × Option ActionMatrixLoader)) (pfx : List Char) :
    Bool × ActionMatrixLoader :=
  let files := listing.filter (fun f =>
    pfx.isPrefixOf f.1 && List.isSuffixOf ".pkl".toList f.1)
  if files.isEmpty then (false, c)
  else loadFiles c files

/-- A populated 5-example container used as a concrete test vehicle. -/
def sampleLoader : ActionMatrixLoader :=
  { actions := ["follow"], is_coo_repr := true, is_x_indices_repr := false,
    num_x_features := some 1, num_y_features := none, num_classes := some 4,
    edge_indices_list := some [[[]], [[]], [[]], [[]], [[]]],
    selected_node_indices := some [[0], [1], [], [0, 1], [2]],
    x_features := some [[1], [2], [3]],
    y_features := none,
    ys := some [[0], [1], [2], [3], [0]] }

/-- Variant of `sampleLoader` with a populated `y_features` field. -/
def sampleLoaderYF : ActionMatrixLoader :=
  { sampleLoader with y_features := some [[5], [6], [7], [8], [9]],
                      num_y_features := some 1 }

/-- Claim C7, counterexample: On a fresh container (all data fields `None`),
`update_ys` with an empty update changes the container: `ys` becomes the
empty sequence instead of `None` and `num_classes` is set to `4`. -/
theorem update_ys_empty_changes_fresh :
    update_ys (initLoader ["follow"]) [] ≠ initLoader ["follow"] := by
  decide

/-- Claim C7, amended: On a container whose touched fields are already
populated (not `None`), each update operation applied with an empty update
leaves every container field unchanged; on a fresh container an empty
update is adopted instead, changing `None` fields (see the counterexample),
and `update_x_features` / `update_y_features` on a fresh container fail on
the empty first update. -/
theorem updates_empty_id :
    (∀ (c : ActionMatrixLoader) E SEL, c.edge_indices_list = some E →
      c.selected_node_indices = some SEL →
      update_matrices_and_indices_raw c [] [] = c ∧
      update_matrices_and_indices_conv c [] [] = c) ∧
    (∀ (c : ActionMatrixLoader) X, c.x_features = some X →
      update_x_features c [] = some c) ∧
    (∀ (c : ActionMatrixLoader) Y, c.y_features = some Y →
      update_y_features c [] = some c) ∧
    (∀ (c : ActionMatrixLoader) Y, c.ys = some Y →
      update_ys c [] = c) := by
  refine ⟨?_, ?_, ?_, ?_⟩
  · rintro ⟨ac, coo, xi, nx, ny, ncl, ei, sel, xf, yf, ysf⟩ E SEL hE hS
    cases hE
    cases hS
    constructor
    · simp [update_matrices_and_indices_raw, assign_or_concat]
    · simp [update_matrices_and_indices_conv, update_matrices_and_indices_raw,
        assign_or_concat]
  · rintro ⟨ac, coo, xi, nx, ny, ncl, ei, sel, xf, yf, ysf⟩ X hX
    cases hX
    simp [update_x_features, assign_or_concat]
  · rintro ⟨ac, coo, xi, nx, ny, ncl, ei, sel, xf, yf, ysf⟩ Y hY
    cases hY
    simp [update_y_features, assign_or_concat]
  · rintro ⟨ac, coo, xi, nx, ny, ncl, ei, sel, xf, yf, ysf⟩ Y hY
    cases hY
    simp [update_ys, assign_or_concat]

theorem updates_empty_id_witness :
    update_matrices_and_indices_raw sampleLoader [] [] = sampleLoader ∧
    update_x_features sampleLoader [] = some sampleLoader ∧
    update_y_features sampleLoaderYF [] = some sampleLoaderYF ∧
    update_ys sampleLoader [] = sampleLoader :=
  ⟨(updates_empty_id.1 sampleLoader _ _ rfl rfl).1,
    updates_empty_id.2.1 sampleLoader _ rfl,
    updates_empty_id.2.2.1 sampleLoaderYF _ rfl,
    updates_empty_id.2.2.2 sampleLoader _ rfl⟩

theorem loadFiles_good_then_bad (bad : List Char)
    (rest : List (List Char × Option ActionMatrixLoader)) :
    ∀ (good : List (List Char × ActionMatrixLoader)) (c cAcc : ActionMatrixLoader),
      good.foldlM (fun s gf => load_batch s gf.2) c = some cAcc →
      loadFiles c (good.map (fun gf => (gf.1, some gf.2)) ++ (bad, none) :: rest) =
        (false, cAcc) := by
  intro good
  induction good with
  | nil =>
    intro c cAcc hacc
    have hc : c = cAcc := by
      simpa [List.foldlM] using hacc
    subst hc
    rfl
  | cons g good ih =>
    intro c cAcc hacc
    rw [List.foldlM_cons] at hacc
    rw [List.map_cons, List.cons_append]
    show (match load_batch c g.2 with
      | none => (false, c)
      | some c2 => loadFiles c2
          (good.map (fun gf => (gf.1, some gf.2)) ++ (bad, none) :: rest)) =
      (false, cAcc)
    cases hlb : load_batch c g.2 with
    | none =>
      rw [hlb] at hacc
      have hbad : (none : Option ActionMatrixLoader) = some cAcc := hacc
      cases hbad
    | some c2 =>
      rw [hlb] at hacc
      exact ih c2 cAcc hacc

/-- Claim C5: `load(name_prefix)` returns `False` without raising both when
no file name in the listing matches the prefix (state untouched) and when
some matching shard fails to deserialize — in which case the data
accumulated from the shards loaded before the failing one is retained. -/
theorem load_failure_semantics :
    (∀ (c : ActionMatrixLoader)
      (listing : List (List Char × Option ActionMatrixLoader)) (pfx : List Char),
      listing.filter (fun f =>
        pfx.isPrefixOf f.1 && List.isSuffixOf ".pkl".toList f.1) = [] →
      load c listing pfx = (false, c)) ∧
    (∀ (c : ActionMatrixLoader)
      (listing : List (List Char × Option ActionMatrixLoader)) (pfx : List Char)
      (good : List (List Char × ActionMatrixLoader)) (bad : List Char)
      (rest : List (List Char × Option ActionMatrixLoader))
      (cAcc : ActionMatrixLoader),
      listing.filter (fun f =>
        pfx.isPrefixOf f.1 && List.isSuffixOf ".pkl".toList f.1) =
        good.map (fun gf => (gf.1, some gf.2)) ++ (bad, none) :: rest →
      good.foldlM (fun s gf => load_batch s gf.2) c = some cAcc →
      load c listing pfx = (false, cAcc)) := by
  constructor
  · intro c listing pfx hf
    unfold load
    rw [hf]
    rfl
  · intro c listing pfx good bad rest cAcc hf hacc
    unfold load
    rw [hf]
    rw [if_neg (by
      intro he
      have : good.map (fun gf => (gf.1, some gf.2)) ++ (bad, none) :: rest = [] :=
        List.isEmpty_iff.mp he
      exact absurd this (by simp))]
    exact loadFiles_good_then_bad bad rest good c cAcc hacc

theorem load_failure_semantics_witness :
    load (initLoader ["follow"])
      [("other.txt".toList, some sampleLoader)] "data".toList =
      (false, initLoader ["follow"]) ∧
    load (initLoader ["follow"])
      [("data_0.pkl".toList, some sampleLoader), ("data_1.pkl".toList, none),
       ("skip.txt".toList, none)] "data".toList =
      (false,
        { initLoader ["follow"] with
            edge_indices_list := sampleLoader.edge_indices_list,
            selected_node_indices := sampleLoader.selected_node_indices,
            x_features := sampleLoader.x_features,
            y_features := sampleLoader.y_features,
            ys := sampleLoader.ys }) :=
  ⟨load_failure_semantics.1 (initLoader ["follow"])
      [("other.txt".toList, some sampleLoader)] "data".toList (by decide),
    load_failure_semantics.2 (initLoader ["follow"])
      [("data_0.pkl".toList, some sampleLoader), ("data_1.pkl".toList, none),
       ("skip.txt".toList, none)] "data".toList
      [("data_0.pkl".toList, sampleLoader)] "data_1.pkl".toList [] _
      (by decide) rfl⟩

theorem foldStart_zero (n k : ℕ) : foldStart n k 0 = 0 := by
  unfold foldStart
  omega

theorem foldStart_succ (n k j : ℕ) :
    foldStart n k (j + 1) = foldStart n k j + foldSize n k j := by
  unfold foldStart foldSize
  by_cases h : j < n % k
  · rw [if_pos h, Nat.succ_mul]
    omega
  · rw [if_neg h, Nat.succ_mul]
    omega

theorem foldStart_self (n k : ℕ) (hk : 1 ≤ k) : foldStart n k k = n := by
  unfold foldStart
  have h1 := Nat.div_add_mod n k
  have h2 : n % k < k := Nat.mod_lt n (by omega)
  omega

theorem flatten_fold_slices (n k : ℕ) (p : List ℕ) :
    ∀ j, ((List.range j).map (fun f => kfoldTestIdx n k f p)).flatten =
      p.take (foldStart n k j) := by
  intro j
  induction j with
  | zero => rw [foldStart_zero]; rfl
  | succ j ih =>
    rw [List.range_succ, List.map_append, List.flatten_append, ih,
      List.map_cons, List.map_nil, List.flatten_cons, List.flatten_nil,
      List.append_nil]
    show p.take (foldStart n k j) ++ (p.drop (foldStart n k j)).take (foldSize n k j) = _
    rw [foldStart_succ, List.take_add]

/-- Claim C9, counterexample: The code computes the fold count as
`int(1/(1-train_ratio))` (truncation), not `round(1/(1-train_ratio))`:
at `train_ratio = 13/20 = 0.65` (where `1/(1-r) = 20/7 ≈ 2.857`) the code
uses 2 folds while the claimed rounding gives 3. -/
theorem numFolds_ne_round :
    numFolds (13 / 20 : ℚ) = 2 ∧ round ((1 : ℚ) / (1 - 13 / 20)) = 3 := by
  constructor
  · norm_num [numFolds, pyInt]
  · norm_num [round_eq]

/-- Claim C9, amended: When `is_train` is specified, `get_batch_generator`
partitions the example positions into exactly `int(1/(1-train_ratio))`
folds (truncation toward zero, `numFolds`), not `round(...)`: with
`k = (numFolds trainR).toNat` the splitter produces exactly `k` test
blocks whose concatenation is the whole position permutation. -/
theorem kfold_uses_truncated_folds (trainR : ℚ) (n : ℕ) (p : List ℕ) (k : ℕ)
    (hk : k = (numFolds trainR).toNat) (hk1 : 1 ≤ k) (hp : p.length = n) :
    ((List.range k).map (fun f => kfoldTestIdx n k f p)).length = k ∧
    ((List.range k).map (fun f => kfoldTestIdx n k f p)).flatten = p := by
  subst hk
  constructor
  · rw [List.length_map, List.length_range]
  · rw [flatten_fold_slices n _ p _, foldStart_self n _ hk1, ← hp,
      List.take_length]

theorem kfold_uses_truncated_folds_witness :
    (5 : ℕ) = (numFolds (4 / 5 : ℚ)).toNat ∧ (1 : ℕ) ≤ 5 ∧
    ([0, 1, 2, 3, 4] : List ℕ).length = 5 ∧
    ((List.range 5).map (fun f => kfoldTestIdx 5 5 f [0, 1, 2, 3, 4])).flatten =
      [0, 1, 2, 3, 4] := by
  have h5 : (5 : ℕ) = (numFolds (4 / 5 : ℚ)).toNat := by
    have : numFolds (4 / 5 : ℚ) = 5 := by norm_num [numFolds, pyInt]
    rw [this]
    rfl
  exact ⟨h5, by decide, by decide,
    (kfold_uses_truncated_folds (4 / 5) 5 [0, 1, 2, 3, 4] 5 h5 (by decide)
      (by decide)).2⟩

theorem mem_kfoldTestIdx_lt (n k f : ℕ) (p : List ℕ)
    (hp : p.Perm (List.range n)) (t : ℕ) (ht : t ∈ kfoldTestIdx n k f p) :
    t < n := by
  have h1 : t ∈ p := by
    have hs : (kfoldTestIdx n k f p).Sublist p :=
      (List.take_sublist _ _).trans (List.drop_sublist _ _)
    exact hs.subset ht
  exact List.mem_range.mp (hp.subset h1)

theorem mem_kfoldTrainIdx (n k f : ℕ) (p : List ℕ) (t : ℕ) :
    t ∈ kfoldTrainIdx n k f p ↔ t < n ∧ t ∉ kfoldTestIdx n k f p := by
  unfold kfoldTrainIdx
  rw [List.mem_filter, List.mem_range]
  simp

theorem mem_emitted (sel : List (List ℕ)) (xs positions : List ℕ) (i : ℕ) :
    i ∈ emitted sel xs positions ↔
      (∃ t ∈ positions, xs.getD t 0 = i) ∧
        (sel.getD i []).isEmpty = false := by
  unfold emitted
  rw [List.mem_filter, List.mem_map]
  simp [Bool.not_eq_true']

theorem train_test_partition (n : ℕ) (sel : List (List ℕ)) (xs p : List ℕ)
    (k f : ℕ) (hxs : xs.Perm (List.range n)) (hp : p.Perm (List.range n)) :
    (∀ i, (i ∈ emitted sel xs (kfoldTrainIdx n k f p) ∨
           i ∈ emitted sel xs (kfoldTestIdx n k f p)) ↔
      (i < n ∧ (sel.getD i []).isEmpty = false)) ∧
    (∀ i, ¬(i ∈ emitted sel xs (kfoldTrainIdx n k f p) ∧
            i ∈ emitted sel xs (kfoldTestIdx n k f p))) := by
  have hxlen : xs.length = n := by rw [hxs.length_eq, List.length_range]
  have hxnodup : xs.Nodup := hxs.symm.nodup (List.nodup_range n)
  have hgetD_lt : ∀ t, t < n → xs.getD t 0 < n := by
    intro t ht
    have hh : t < xs.length := by omega
    rw [List.getD_eq_getElem _ _ hh]
    exact List.mem_range.mp (hxs.subset (List.getElem_mem hh))
  have hinj : ∀ t1 t2, t1 < n → t2 < n →
      xs.getD t1 0 = xs.getD t2 0 → t1 = t2 := by
    intro t1 t2 h1 h2 he
    have hh1 : t1 < xs.length := by omega
    have hh2 : t2 < xs.length := by omega
    rw [List.getD_eq_getElem _ _ hh1, List.getD_eq_getElem _ _ hh2] at he
    exact (hxnodup.getElem_inj_iff).mp he
  have hsurj : ∀ i, i < n → ∃ t, t < n ∧ xs.getD t 0 = i := by
    intro i hi
    obtain ⟨t, ht, he⟩ :=
      List.mem_iff_getElem.mp (hxs.mem_iff.mpr (List.mem_range.mpr hi))
    refine ⟨t, by omega, ?_⟩
    rw [List.getD_eq_getElem _ _ ht]
    exact he
  constructor
  · intro i
    constructor
    · rintro (h | h)
      · rw [mem_emitted] at h
        obtain ⟨⟨t, htP, hti⟩, hflag⟩ := h
        have htn : t < n := ((mem_kfoldTrainIdx n k f p t).mp htP).1
        exact ⟨hti ▸ hgetD_lt t htn, hflag⟩
      · rw [mem_emitted] at h
        obtain ⟨⟨t, htP, hti⟩, hflag⟩ := h
        have htn : t < n := mem_kfoldTestIdx_lt n k f p hp t htP
        exact ⟨hti ▸ hgetD_lt t htn, hflag⟩
    · rintro ⟨hi, hflag⟩
      obtain ⟨t, htn, hti⟩ := hsurj i hi
      by_cases htTest : t ∈ kfoldTestIdx n k f p
      · right
        rw [mem_emitted]
        exact ⟨⟨t, htTest, hti⟩, hflag⟩
      · left
        rw [mem_emitted]
        exact ⟨⟨t, (mem_kfoldTrainIdx n k f p t).mpr ⟨htn, htTest⟩, hti⟩, hflag⟩
  · intro i
    rintro ⟨h1, h2⟩
    rw [mem_emitted] at h1 h2
    obtain ⟨⟨t1, ht1P, ht1i⟩, -⟩ := h1
    obtain ⟨⟨t2, ht2P, ht2i⟩, -⟩ := h2
    have ht1n : t1 < n := ((mem_kfoldTrainIdx n k f p t1).mp ht1P).1
    have ht2n : t2 < n := mem_kfoldTestIdx_lt n k f p hp t2 ht2P
    have heq : t1 = t2 := hinj t1 t2 ht1n ht2n (by rw [ht1i, ht2i])
    subst heq
    exact ((mem_kfoldTrainIdx n k f p t1).mp ht1P).2 ht2P

theorem get_batch_generator_indices_eq (c : ActionMatrixLoader)
    (E : List (List (List Triple))) (Y : List (List ℤ)) (SEL : List (List ℕ))
    (xs p : List ℕ) (it : Bool) (trainR : ℚ) (fold : ℕ)
    (hE : c.edge_indices_list = some E) (hY : c.ys = some Y)
    (hS : c.selected_node_indices = some SEL) :
    get_batch_generator_indices c xs p it trainR fold =
      (if E.length = Y.length then
        (if 2 ≤ (numFolds trainR).toNat ∧ (numFolds trainR).toNat ≤ E.length ∧
            fold < (numFolds trainR).toNat then
          some (emitted SEL xs
            (if it then kfoldTrainIdx E.length (numFolds trainR).toNat fold p
             else kfoldTestIdx E.length (numFolds trainR).toNat fold p))
        else none)
      else none) := by
  unfold get_batch_generator_indices
  rw [hE, hY, hS]

/-- Claim C3: For any container, shuffle permutation `xs` and internal fold
permutation `p`, the example-index sets produced with `is_train=True` and
`is_train=False` at the same fold are disjoint, and their union is exactly
the set of valid example indices (those with a non-empty selected-node
list), with empty-node examples excluded identically on both sides. -/
theorem fold_partition_law (c : ActionMatrixLoader)
    (E : List (List (List Triple))) (Y : List (List ℤ)) (SEL : List (List ℕ))
    (xs p : List ℕ) (trainR : ℚ) (fold : ℕ) (tl testl : List ℕ)
    (hE : c.edge_indices_list = some E) (hY : c.ys = some Y)
    (hS : c.selected_node_indices = some SEL)
    (hxs : xs.Perm (List.range E.length))
    (hp : p.Perm (List.range E.length))
    (htr : get_batch_generator_indices c xs p true trainR fold = some tl)
    (hte : get_batch_generator_indices c xs p false trainR fold = some testl) :
    (∀ i, (i ∈ tl ∨ i ∈ testl) ↔
      (i < E.length ∧ (SEL.getD i []).isEmpty = false)) ∧
    (∀ i, ¬(i ∈ tl ∧ i ∈ testl)) := by
  rw [get_batch_generator_indices_eq c E Y SEL xs p true trainR fold hE hY hS]
    at htr
  rw [get_batch_generator_indices_eq c E Y SEL xs p false trainR fold hE hY hS]
    at hte
  by_cases hlen : E.length = Y.length
  · rw [if_pos hlen] at htr hte
    by_cases hg : 2 ≤ (numFolds trainR).toNat ∧
        (numFolds trainR).toNat ≤ E.length ∧ fold < (numFolds trainR).toNat
    · rw [if_pos hg] at htr hte
      injection htr with htr'
      injection hte with hte'
      rw [← htr', ← hte']
      exact train_test_partition E.length SEL xs p (numFolds trainR).toNat
        fold hxs hp
    · rw [if_neg hg] at htr
      cases htr
  · rw [if_neg hlen] at htr
    cases htr

theorem fold_partition_law_witness :
    get_batch_generator_indices sampleLoader [0, 1, 2, 3, 4] [0, 1, 2, 3, 4]
      true (4 / 5) 0 = some [1, 3, 4] ∧
    get_batch_generator_indices sampleLoader [0, 1, 2, 3, 4] [0, 1, 2, 3, 4]
      false (4 / 5) 0 = some [0] ∧
    ((3 ∈ ([1, 3, 4] : List ℕ) ∨ 3 ∈ ([0] : List ℕ)) ↔
      (3 < 5 ∧ (([[0], [1], [], [0, 1], [2]] : List (List ℕ)).getD 3
        []).isEmpty = false)) ∧
    ¬(0 ∈ ([1, 3, 4] : List ℕ) ∧ 0 ∈ ([0] : List ℕ)) := by
  have h1 : numFolds (4 / 5 : ℚ) = 5 := by norm_num [numFolds, pyInt]
  have hnf : (numFolds (4 / 5 : ℚ)).toNat = 5 := by rw [h1]; rfl
  have htr : get_batch_generator_indices sampleLoader [0, 1, 2, 3, 4]
      [0, 1, 2, 3, 4] true (4 / 5) 0 = some [1, 3, 4] := by
    rw [get_batch_generator_indices_eq sampleLoader _ _ _ _ _ true (4 / 5) 0
      rfl rfl rfl, hnf]
    decide
  have hte : get_batch_generator_indices sampleLoader [0, 1, 2, 3, 4]
      [0, 1, 2, 3, 4] false (4 / 5) 0 = some [0] := by
    rw [get_batch_generator_indices_eq sampleLoader _ _ _ _ _ false (4 / 5) 0
      rfl rfl rfl, hnf]
    decide
  have h := fold_partition_law sampleLoader _ _ _ _ _ (4 / 5) 0 [1, 3, 4] [0]
    rfl rfl rfl (by decide) (by decide) htr hte
  exact ⟨htr, hte, h.1 3, h.2 0⟩

theorem concat3_slices {α : Type} (l : List α) (cs : ℕ)
    (hl : l.length ≤ cs + cs + cs) :
    ((l.drop (0 * cs)).take cs ++ (l.drop (1 * cs)).take cs) ++
      (l.drop (2 * cs)).take cs = l := by
  have h0 : 0 * cs = 0 := by omega
  have h1 : 1 * cs = cs := by omega
  have h2 : 2 * cs = cs + cs := by omega
  rw [h0, h1, h2, List.drop_zero, ← List.take_add, ← List.take_add]
  exact List.take_of_length_le hl

theorem length_le_three_ceilDiv (n : ℕ) :
    n ≤ ceilDiv n 3 + ceilDiv n 3 + ceilDiv n 3 := by
  unfold ceilDiv
  omega

theorem dump_eq (c : ActionMatrixLoader)
    (E : List (List (List Triple))) (Y : List (List ℤ)) (X : List (List ℤ))
    (SEL : List (List ℕ)) (k : ℕ)
    (hE : c.edge_indices_list = some E) (hY : c.ys = some Y)
    (hX : c.x_features = some X) (hS : c.selected_node_indices = some SEL) :
    dump c k =
      (if E.length = Y.length then
        (List.range k).mapM (fun i =>
          (update_x_features
            (update_matrices_and_indices_raw (initLoader c.actions)
              ((E.drop (i * ceilDiv E.length k)).take (ceilDiv E.length k))
              ((SEL.drop (i * ceilDiv E.length k)).take (ceilDiv E.length k)))
            ((X.drop (i * ceilDiv X.length k)).take (ceilDiv X.length k))).bind
            (fun sh1 =>
              match c.y_features with
              | none => some (update_ys sh1
                  ((Y.drop (i * ceilDiv E.length k)).take (ceilDiv E.length k)))
              | some YF => update_y_features
                  (update_ys sh1
                    ((Y.drop (i * ceilDiv E.length k)).take
                      (ceilDiv E.length k)))
                  ((YF.drop (i * ceilDiv E.length k)).take
                    (ceilDiv E.length k))))
      else none) := by
  unfold dump
  rw [hE, hY, hX, hS]

/-- Claim C4: For a container holding 10 examples, `dump(prefix, num_subfiles=3)`
produces exactly 3 shard containers, and loading them in order into a fresh
container reproduces `edge_indices_list`, `selected_node_indices`,
`x_features`, `y_features` and `ys` exactly. -/
theorem dump_load_roundtrip (c : ActionMatrixLoader)
    (E : List (List (List Triple))) (SEL : List (List ℕ))
    (X Y : List (List ℤ))
    (hE : c.edge_indices_list = some E)
    (hS : c.selected_node_indices = some SEL)
    (hX : c.x_features = some X) (hY : c.ys = some Y)
    (hE10 : E.length = 10) (hY10 : Y.length = 10) (hS10 : SEL.length = 10)
    (hx : ∀ i, i < 3 → i * ceilDiv X.length 3 < X.length)
    (hyf : c.y_features = none ∨
      ∃ YF, c.y_features = some YF ∧ YF.length = 10) :
    ∃ shards, dump c 3 = some shards ∧ shards.length = 3 ∧
      (loadFiles (initLoader c.actions)
        (shards.map (fun sh => ("shard.pkl".toList, some sh)))).1 = true ∧
      (loadFiles (initLoader c.actions)
        (shards.map (fun sh =>
          ("shard.pkl".toList, some sh)))).2.edge_indices_list =
        c.edge_indices_list ∧
      (loadFiles (initLoader c.actions)
        (shards.map (fun sh =>
          ("shard.pkl".toList, some sh)))).2.selected_node_indices =
        c.selected_node_indices ∧
      (loadFiles (initLoader c.actions)
        (shards.map (fun sh => ("shard.pkl".toList, some sh)))).2.x_features =
        c.x_features ∧
      (loadFiles (initLoader c.actions)
        (shards.map (fun sh => ("shard.pkl".toList, some sh)))).2.y_features =
        c.y_features ∧
      (loadFiles (initLoader c.actions)
        (shards.map (fun sh => ("shard.pkl".toList, some sh)))).2.ys =
        c.ys := by
  have hcdx : 0 < ceilDiv X.length 3 := by
    have h0 := hx 0 (by omega)
    unfold ceilDiv at h0 ⊢
    omega
  have hne : ∀ i, i < 3 →
      (X.drop (i * ceilDiv X.length 3)).take (ceilDiv X.length 3) ≠ [] := by
    intro i hi
    rw [← List.length_pos, List.length_take, List.length_drop]
    have := hx i hi
    omega
  obtain ⟨x00, xr0, hx0⟩ := List.exists_cons_of_ne_nil (hne 0 (by omega))
  obtain ⟨x10, xr1, hx1⟩ := List.exists_cons_of_ne_nil (hne 1 (by omega))
  obtain ⟨x20, xr2, hx2⟩ := List.exists_cons_of_ne_nil (hne 2 (by omega))
  have hconcatX := concat3_slices X (ceilDiv X.length 3)
    (length_le_three_ceilDiv X.length)
  rw [hx0, hx1, hx2] at hconcatX
  have hconcatE := concat3_slices E (ceilDiv E.length 3)
    (length_le_three_ceilDiv E.length)
  have hconcatS := concat3_slices SEL (ceilDiv E.length 3)
    (by rw [hS10, hE10]; decide)
  have hconcatY := concat3_slices Y (ceilDiv E.length 3)
    (by rw [hY10, hE10]; decide)
  rcases hyf with hyfn | ⟨YF, hyfs, hyf10⟩
  · have hdump : dump c 3 = some
        [{ actions := c.actions, is_coo_repr := true, is_x_indices_repr := false,
           num_x_features := some x00.length, num_y_features := none,
           num_classes := some 4,
           edge_indices_list :=
             some ((E.drop (0 * ceilDiv E.length 3)).take (ceilDiv E.length 3)),
           selected_node_indices :=
             some ((SEL.drop (0 * ceilDiv E.length 3)).take (ceilDiv E.length 3)),
           x_features := some (x00 :: xr0), y_features := none,
           ys :=
             some ((Y.drop (0 * ceilDiv E.length 3)).take (ceilDiv E.length 3)) },
         { actions := c.actions, is_coo_repr := true, is_x_indices_repr := false,
           num_x_features := some x10.length, num_y_features := none,
           num_classes := some 4,
           edge_indices_list :=
             some ((E.drop (1 * ceilDiv E.length 3)).take (ceilDiv E.length 3)),
           selected_node_indices :=
             some ((SEL.drop (1 * ceilDiv E.length 3)).take (ceilDiv E.length 3)),
           x_features := some (x10 :: xr1), y_features := none,
           ys :=
             some ((Y.drop (1 * ceilDiv E.length 3)).take (ceilDiv E.length 3)) },
         { actions := c.actions, is_coo_repr := true, is_x_indices_repr := false,
           num_x_features := some x20.length, num_y_features := none,
           num_classes := some 4,
           edge_indices_list :=
             some ((E.drop (2 * ceilDiv E.length 3)).take (ceilDiv E.length 3)),
           selected_node_indices :=
             some ((SEL.drop (2 * ceilDiv E.length 3)).take (ceilDiv E.length 3)),
           x_features := some (x20 :: xr2), y_features := none,
           ys :=
             some ((Y.drop (2 * ceilDiv E.length 3)).take (ceilDiv E.length 3)) }] := by
      rw [dump_eq c E Y X SEL 3 hE hY hX hS, if_pos (by rw [hE10, hY10]),
        show List.range 3 = [0, 1, 2] from rfl]
      simp only [List.mapM_cons, List.mapM_nil]
      rw [hyfn, hx0, hx1, hx2]
      rfl
    refine ⟨_, hdump, rfl, rfl, ?_, ?_, ?_, ?_, ?_⟩
    · rw [hE]
      exact congrArg some hconcatE
    · rw [hS]
      exact congrArg some hconcatS
    · rw [hX]
      exact congrArg some hconcatX
    · rw [hyfn]
      rfl
    · rw [hY]
      exact congrArg some hconcatY
  · have hyne : ∀ i, i < 3 →
        (YF.drop (i * ceilDiv E.length 3)).take (ceilDiv E.length 3) ≠ [] := by
      intro i hi
      rw [← List.length_pos, List.length_take, List.length_drop, hyf10, hE10]
      unfold ceilDiv
      omega
    obtain ⟨y00, yr0, hyf0⟩ := List.exists_cons_of_ne_nil (hyne 0 (by omega))
    obtain ⟨y10, yr1, hyf1⟩ := List.exists_cons_of_ne_nil (hyne 1 (by omega))
    obtain ⟨y20, yr2, hyf2⟩ := List.exists_cons_of_ne_nil (hyne 2 (by omega))
    have hconcatYF := concat3_slices YF (ceilDiv E.length 3)
      (by rw [hyf10, hE10]; decide)
    rw [hyf0, hyf1, hyf2] at hconcatYF
    have hdump : dump c 3 = some
        [{ actions := c.actions, is_coo_repr := true, is_x_indices_repr := false,
           num_x_features := some x00.length, num_y_features := some y00.length,
           num_classes := some 4,
           edge_indices_list :=
             some ((E.drop (0 * ceilDiv E.length 3)).take (ceilDiv E.length 3)),
           selected_node_indices :=
             some ((SEL.drop (0 * ceilDiv E.length 3)).take (ceilDiv E.length 3)),
           x_features := some (x00 :: xr0), y_features := some (y00 :: yr0),
           ys :=
             some ((Y.drop (0 * ceilDiv E.length 3)).take (ceilDiv E.length 3)) },
         { actions := c.actions, is_coo_repr := true, is_x_indices_repr := false,
           num_x_features := some x10.length, num_y_features := some y10.length,
           num_classes := some 4,
           edge_indices_list :=
             some ((E.drop (1 * ceilDiv E.length 3)).take (ceilDiv E.length 3)),
           selected_node_indices :=
             some ((SEL.drop (1 * ceilDiv E.length 3)).take (ceilDiv E.length 3)),
           x_features := some (x10 :: xr1), y_features := some (y10 :: yr1),
           ys :=
             some ((Y.drop (1 * ceilDiv E.length 3)).take (ceilDiv E.length 3)) },
         { actions := c.actions, is_coo_repr := true, is_x_indices_repr := false,
           num_x_features := some x20.length, num_y_features := some y20.length,
           num_classes := some 4,
           edge_indices_list :=
             some ((E.drop (2 * ceilDiv E.length 3)).take (ceilDiv E.length 3)),
           selected_node_indices :=
             some ((SEL.drop (2 * ceilDiv E.length 3)).take (ceilDiv E.length 3)),
           x_features := some (x20 :: xr2), y_features := some (y20 :: yr2),
           ys :=
             some ((Y.drop (2 * ceilDiv E.length 3)).take (ceilDiv E.length 3)) }] := by
      rw [dump_eq c E Y X SEL 3 hE hY hX hS, if_pos (by rw [hE10, hY10]),
        show List.range 3 = [0, 1, 2] from rfl]
      simp only [List.mapM_cons, List.mapM_nil]
      rw [hx0, hx1, hx2]
      simp only [hyfs]
      rw [hyf0, hyf1, hyf2]
      rfl
    refine ⟨_, hdump, rfl, rfl, ?_, ?_, ?_, ?_, ?_⟩
    · rw [hE]
      exact congrArg some hconcatE
    · rw [hS]
      exact congrArg some hconcatS
    · rw [hX]
      exact congrArg some hconcatX
    · rw [hyfs]
      exact congrArg some hconcatYF
    · rw [hY]
      exact congrArg some hconcatY

/-- A concrete 10-example container for exercising the sharded dump. -/
def sample10 : ActionMatrixLoader :=
  { actions := ["follow"], is_coo_repr := true, is_x_indices_repr := false,
    num_x_features := some 1, num_y_features := none, num_classes := some 4,
    edge_indices_list :=
      some [[[]], [[]], [[]], [[]], [[]], [[]], [[]], [[]], [[]], [[]]],
    selected_node_indices :=
      some [[0], [1], [2], [0], [1], [2], [0], [1], [2], [0]],
    x_features := some [[1], [2], [3]],
    y_features := none,
    ys := some [[0], [1], [2], [3], [0], [1], [2], [3], [0], [1]] }

theorem dump_load_roundtrip_witness :
    ((dump sample10 3).getD []).length = 3 ∧
    (loadFiles (initLoader ["follow"])
      (((dump sample10 3).getD []).map
        (fun sh => ("shard.pkl".toList, some sh)))).2.ys = sample10.ys ∧
    (loadFiles (initLoader ["follow"])
      (((dump sample10 3).getD []).map
        (fun sh => ("shard.pkl".toList, some sh)))).2.x_features =
      sample10.x_features := by
  obtain ⟨shards, hd, hl, hf, he, hs, hxf, hyf, hy⟩ :=
    dump_load_roundtrip sample10 _ _ _ _ rfl rfl rfl rfl rfl rfl rfl
      (by decide) (Or.inl rfl)
  rw [hd]
  exact ⟨hl, hy, hxf⟩

theorem simulate_propagation_spec_witness :
    (simulate_propagation
      (add_event_listener scenario "propagate" 7 [("a", 1)])).1 =
      add_event_listener scenario "propagate" 7 [("a", 1)] ∧
    (simulate_propagation
      (add_event_listener scenario "propagate" 7 [("a", 1)])).2 =
      [{ callback := 7, event := (0, PNode.ROOT, PNode.node 0), info := 0,
         kwargs := [("a", 1)] },
       { callback := 7, event := (1, PNode.node 0, PNode.node 1), info := 0,
         kwargs := [("a", 1)] },
       { callback := 7, event := (2, PNode.node 1, PNode.node 2), info := 0,
         kwargs := [("a", 1)] }] :=
  ⟨(simulate_propagation_spec
      (add_event_listener scenario "propagate" 7 [("a", 1)])).1,
    ((simulate_propagation_spec
      (add_event_listener scenario "propagate" 7 [("a", 1)])).2).trans
      (by decide)⟩
